import Mathlib

/-!
Verification of the podboard core (Go package `podboard`) against its
natural-language specification.

The development shallowly embeds the two core subsystems:

* the pod query engine (`GetPods`, `matchesRegexSelector`, `getPodStatus`,
  `extractImageTag`, `podToPodInfo`, `DeletePod`), and
* the cluster resolver (`GetClusters`, `findBestUserForCluster`),

as executable Lean functions translated from the Go source.  Machinery the
Go code takes from its standard library (`strings.Split`, `strings.TrimSpace`,
`strings.Contains`, `strings.SplitN`, `strings.LastIndex`) is modelled by
structural recursions over `List Char` with the same semantics.  The
Kubernetes API client is modelled as an explicit function parameter (a pure
map from request parameters to a response), and Go's `regexp` package is
modelled as an abstract compilation function `ReEngine`: `compile` returns
`none` exactly when the pattern is invalid, and otherwise a matcher with
Go's unanchored `MatchString` search semantics.
-/

namespace Podboard

/-! ## String machinery (models of Go `strings` functions) -/

/-- Model of Go `strings.Split(s, ",")` (single-character separator),
on character lists. -/
def splitComma : List Char → List (List Char)
  | [] => [[]]
  | c :: t =>
    if c = ',' then [] :: splitComma t
    else
      match splitComma t with
      | h :: r => (c :: h) :: r
      | [] => [[c]]

/-- Drop leading whitespace characters. -/
def dropWs : List Char → List Char
  | [] => []
  | c :: t => if c.isWhitespace then dropWs t else c :: t

/-- Model of Go `strings.TrimSpace`. -/
def goTrim (s : String) : String := String.mk (dropWs (dropWs s.toList.reverse).reverse)

/-- Split a selector string on commas, the list-of-strings view of
`strings.Split(selector, ",")`. -/
def goSplitComma (s : String) : List String := (splitComma s.toList).map String.mk

/-- Search for the first occurrence of `pat` in `l`; on success return the
text before it and the text after it.  `none` means `pat` does not occur.
This is the common core of Go `strings.Contains` and `strings.SplitN(s, pat, 2)`. -/
def breakOnList (pat : List Char) : List Char → Option (List Char × List Char)
  | [] => if pat.isEmpty then some ([], []) else none
  | c :: t =>
    if pat.isPrefixOf (c :: t) then some ([], (c :: t).drop pat.length)
    else
      match breakOnList pat t with
      | some (a, b) => some (c :: a, b)
      | none => none

/-- Model of Go `strings.Contains(s, pat)`. -/
def goContains (s pat : String) : Bool := (breakOnList pat.toList s.toList).isSome

/-- Model of Go `strings.SplitN(s, pat, 2)` restricted to the case where
`pat` occurs in `s` (the only case the source reaches, guarded by
`strings.Contains`). -/
def breakOnSub (pat s : String) : Option (String × String) :=
  (breakOnList pat.toList s.toList).map (fun p => (String.mk p.1, String.mk p.2))

/-- Byte-wise lexicographic comparison, the model of Go's `<` on strings. -/
def charListLt : List Char → List Char → Bool
  | [], [] => false
  | [], _ :: _ => true
  | _ :: _, [] => false
  | a :: as, b :: bs => if a < b then true else if b < a then false else charListLt as bs

/-- String strict order used by the cluster sort. -/
def strLt (a b : String) : Bool := charListLt a.toList b.toList

/-- Reflexive closure of `strLt`; `strLe a b` means `a` sorts no later than `b`. -/
def strLe (a b : String) : Bool := !(strLt b a)

/-- The segment of `l` strictly after its last `':'`, or `none` if `l` has no
colon.  Models the `strings.LastIndex(image, ":")` slice in `extractImageTag`. -/
def afterLastColon : List Char → Option (List Char)
  | [] => none
  | c :: t =>
    match afterLastColon t with
    | some r => some r
    | none => if c = ':' then some t else none

/-! ## Data model (translated from `corev1` types as used by the source) -/

/-- Error kinds of the core, following the spec's error taxonomy. -/
inductive KubeError
  | configUnavailable
  | clusterNotFound
  | credentialNotFound
  | clientConstructionError
  | apiError
deriving DecidableEq

instance : DecidableEq (Except KubeError String) := fun a b =>
  match a, b with
  | .ok x, .ok y => decidable_of_iff (x = y) (by constructor <;> (intro h; first | rw [h] | cases h; rfl))
  | .error x, .error y => decidable_of_iff (x = y) (by constructor <;> (intro h; first | rw [h] | cases h; rfl))
  | .ok _, .error _ => isFalse (by intro h; cases h)
  | .error _, .ok _ => isFalse (by intro h; cases h)

/-- A pod label map, the snapshot of a Go `map[string]string` as an
association list with unique keys.  `none` models a nil map. -/
def Labels := List (String × String)
deriving DecidableEq

/-- First-match association-list lookup, the model of Go map indexing. -/
def lookupLabel : Labels → String → Option String
  | [], _ => none
  | (k, v) :: t, key => if k = key then some v else lookupLabel t key

/-- Abstract regex engine: `re pattern` is `none` when the pattern does not
compile (Go `regexp.Compile` returns an error) and otherwise the
`MatchString` matcher of the compiled pattern. -/
def ReEngine := String → Option (String → Bool)

/-- `corev1.ContainerStateWaiting` (the field the source reads). -/
structure ContainerStateWaiting where
  reason : String
deriving DecidableEq

/-- `corev1.ContainerStateTerminated` (the fields the source reads). -/
structure ContainerStateTerminated where
  exitCode : Int
  reason : String
deriving DecidableEq

/-- `corev1.ContainerState`. -/
structure ContainerState where
  waiting : Option ContainerStateWaiting := none
  terminated : Option ContainerStateTerminated := none
deriving DecidableEq

/-- `corev1.ContainerStatus` (the fields the source reads). -/
structure ContainerStatus where
  state : ContainerState := {}
  ready : Bool := false
  restartCount : Int := 0
deriving DecidableEq

/-- `corev1.Container` (the fields the source reads). -/
structure Container where
  image : String
deriving DecidableEq

/-- `corev1.PodSpec` (the fields the source reads). -/
structure PodSpec where
  containers : List Container := []
  nodeName : String := ""
deriving DecidableEq

/-- `corev1.PodStatus` (the fields the source reads).  The phase is kept as
its underlying string (`corev1.PodPhase` is a string type). -/
structure PodStatus where
  phase : String := ""
  initContainerStatuses : List ContainerStatus := []
  containerStatuses : List ContainerStatus := []
  podIP : String := ""
deriving DecidableEq

/-- `corev1.Pod` (the fields the source reads).  `creationTimestamp` is in
seconds; `deletionTimestamp` is `none` for a live pod.  `labels = none`
models a nil label map. -/
structure Pod where
  name : String := ""
  ns : String := ""
  labels : Option Labels := none
  deletionTimestamp : Option Nat := none
  creationTimestamp : Nat := 0
  spec : PodSpec := {}
  status : PodStatus := {}
deriving DecidableEq

/-- `corev1.PodRunning`. -/
def PodRunning : String := "Running"

/-- `corev1.PodPending`. -/
def PodPending : String := "Pending"

/-- `PodInfo`, the dashboard projection of a pod. -/
structure PodInfo where
  name : String
  ns : String
  imageTag : String
  status : String
  ready : String
  restarts : Int
  age : String
  node : String
  ip : String
  labels : Option Labels
deriving DecidableEq

/-! ## Pod query engine (translated from `GetPods` and its helpers) -/

/-- One of the two inline container-inspection loops of `getPodStatus`;
`fallback` is `"InitError"` for the init-container loop and `"Error"` for
the regular-container loop.  Sequential early-return structure mirrors the
Go loop body. -/
def containerLoop (fallback : String) : List ContainerStatus → Option String
  | [] => none
  | cs :: rest =>
    match cs.state.waiting with
    | some w =>
      if w.reason ≠ "" then some w.reason
      else
        match cs.state.terminated with
        | some t =>
          if t.exitCode ≠ 0 then some (if t.reason ≠ "" then t.reason else fallback)
          else containerLoop fallback rest
        | none => containerLoop fallback rest
    | none =>
      match cs.state.terminated with
      | some t =>
        if t.exitCode ≠ 0 then some (if t.reason ≠ "" then t.reason else fallback)
        else containerLoop fallback rest
      | none => containerLoop fallback rest

/-- `getPodStatus`, translated from the source. -/
def getPodStatus (pod : Pod) : String :=
  if pod.deletionTimestamp.isSome then "Terminating"
  else
    let status := pod.status.phase
    if pod.status.phase = PodRunning ∨ pod.status.phase = PodPending then
      match containerLoop "InitError" pod.status.initContainerStatuses with
      | some s => s
      | none =>
        match containerLoop "Error" pod.status.containerStatuses with
        | some s => s
        | none => status
    else status

/-- `extractImageTag`, translated from the source. -/
def extractImageTag (pod : Pod) : String :=
  match pod.spec.containers with
  | [] => "unknown"
  | c :: _ =>
    match afterLastColon c.image.toList with
    | none => "latest"
    | some afterColon =>
      if afterColon.contains '/' then "latest"
      else
        let tag := goTrim (String.mk afterColon)
        if tag = "" then "latest" else tag

/-- `formatDuration`, translated from the source, on a duration in whole
seconds. -/
def formatDuration (d : Nat) : String :=
  if d < 60 then s!"{d}s"
  else if d < 3600 then s!"{d / 60}m"
  else if d < 86400 then s!"{d / 3600}h"
  else s!"{d / 86400}d"

/-- `podToPodInfo`, translated from the source; `now` stands for the wall
clock read by `time.Since`. -/
def podToPodInfo (now : Nat) (pod : Pod) : PodInfo :=
  let readyContainers := pod.status.containerStatuses.countP (fun s => s.ready)
  let totalContainers := pod.spec.containers.length
  let restarts := pod.status.containerStatuses.foldl (fun acc s => acc + s.restartCount) 0
  let age := now - pod.creationTimestamp
  { name := pod.name
    ns := pod.ns
    imageTag := extractImageTag pod
    status := getPodStatus pod
    ready := s!"{readyContainers}/{totalContainers}"
    restarts := restarts
    age := formatDuration age
    node := pod.spec.nodeName
    ip := pod.status.podIP
    labels := pod.labels }

/-- The clause loop of `matchesRegexSelector`, translated from the source. -/
def matchClauses (re : ReEngine) (m : Labels) : List String → Bool
  | [] => true
  | rawSel :: rest =>
    if goTrim rawSel = "" then matchClauses re m rest
    else if goContains (goTrim rawSel) "=~" then
      match breakOnSub "=~" (goTrim rawSel) with
      | some (k, pat) =>
        match lookupLabel m (goTrim k) with
        | none => false
        | some labelValue =>
          match re (goTrim pat) with
          | none => false
          | some matcher => if matcher labelValue then matchClauses re m rest else false
      | none => false
    else if goContains (goTrim rawSel) "=" && !goContains (goTrim rawSel) "!=" then
      match breakOnSub "=" (goTrim rawSel) with
      | some (k, v) =>
        match lookupLabel m (goTrim k) with
        | none => false
        | some labelValue => if labelValue = goTrim v then matchClauses re m rest else false
      | none => matchClauses re m rest
    else false

/-- `matchesRegexSelector`, translated from the source. -/
def matchesRegexSelector (re : ReEngine) (labels : Option Labels) (selector : String) : Bool :=
  match labels with
  | none => false
  | some m => matchClauses re m (goSplitComma selector)

/-- The result-building loop of `GetPods`, translated from the source. -/
def buildInfos (re : ReEngine) (now : Nat) (labelSelector : String) : List Pod → List PodInfo
  | [] => []
  | p :: rest =>
    if goContains labelSelector "=~" && !matchesRegexSelector re p.labels labelSelector then
      buildInfos re now labelSelector rest
    else podToPodInfo now p :: buildInfos re now labelSelector rest

/-- `GetPods`, translated from the source.  The Kubernetes client is the
parameter `api`: its first argument is the query namespace, its second the
optional native label selector of the list request. -/
def GetPods (re : ReEngine) (api : String → Option String → Except KubeError (List Pod))
    (now : Nat) (ns labelSelector : String) : Except KubeError (List PodInfo) :=
  let queryNamespace := if ns = "all" then "" else ns
  let fetched :=
    if goContains labelSelector "=~" then api queryNamespace none
    else api queryNamespace (if labelSelector = "" then none else some labelSelector)
  match fetched with
  | .error e => .error e
  | .ok pods => .ok (buildInfos re now labelSelector pods)

/-- The deletion propagation policy of a Kubernetes delete request. -/
inductive PropagationPolicy
  | orphan
  | background
  | foreground
deriving DecidableEq

/-- `metav1.DeleteOptions` (the field relevant to cascading behaviour);
the Go zero value `metav1.DeleteOptions{}` has a nil propagation policy. -/
structure DeleteOptions where
  propagationPolicy : Option PropagationPolicy := none
deriving DecidableEq

/-- One delete request issued against the API. -/
structure DeleteRequest where
  ns : String
  podName : String
  options : DeleteOptions
deriving DecidableEq

/-- `DeletePod`, translated from the source.  Alongside the call result it
returns the list of delete requests issued to the API, so that the request
trace (options used, number of attempts) is part of the model. -/
def DeletePod (api : DeleteRequest → Except KubeError Unit) (ns podName : String) :
    Except KubeError Unit × List DeleteRequest :=
  let req : DeleteRequest := { ns := ns, podName := podName, options := {} }
  (api req, [req])

/-! ## Cluster resolver (translated from `GetClusters` and
`findBestUserForCluster`) -/

/-- `clientcmdapi.Context` (the fields the source reads). -/
structure KContext where
  cluster : String
  authInfo : String
deriving DecidableEq

/-- The loaded `clientcmdapi.Config`.  Go maps are modelled as snapshot
lists: `clusters` is the key set of `config.Clusters`, `contexts` the
name-keyed entries of `config.Contexts`, `authInfos` the key set of
`config.AuthInfos`. -/
structure KubeConfig where
  clusters : List String := []
  contexts : List (String × KContext) := []
  authInfos : List String := []
  currentContext : String := ""
deriving DecidableEq

/-- `ClusterInfo`. -/
structure ClusterInfo where
  Name : String
  Current : Bool
deriving DecidableEq

/-- First-match lookup of a context by name, the model of
`config.Contexts[name]`. -/
def lookupContext : List (String × KContext) → String → Option KContext
  | [], _ => none
  | (k, v) :: t, key => if k = key then some v else lookupContext t key

/-- The current-cluster resolution step of `GetClusters` (also the body of
`GetCurrentCluster`). -/
def currentClusterOf (cfg : KubeConfig) : String :=
  if cfg.currentContext ≠ "" then
    match lookupContext cfg.contexts cfg.currentContext with
    | some ctx => ctx.cluster
    | none => ""
  else ""

/-- The `clusterMap` seen-set loop of `GetClusters`: keep the first
occurrence of each name. -/
def dedupKeep (seen : List String) : List String → List String
  | [] => []
  | n :: t => if n ∈ seen then dedupKeep seen t else n :: dedupKeep (n :: seen) t

/-- The comparator passed to `sort.Slice` in `GetClusters`. -/
def clusterLess (a b : ClusterInfo) : Bool :=
  if a.Current then true
  else if b.Current then false
  else strLt a.Name b.Name

/-- Insert into a list sorted by `clusterLess`. -/
def insertCluster (a : ClusterInfo) : List ClusterInfo → List ClusterInfo
  | [] => [a]
  | b :: t => if clusterLess a b then a :: b :: t else b :: insertCluster a t

/-- The `sort.Slice(clusters, less)` call of `GetClusters`, modelled as an
insertion sort: on the inputs the source produces (distinct names, at most
one current entry) the comparator is a strict total order, so the sorted
permutation is unique and any correct sort is a faithful model. -/
def sortClusters (l : List ClusterInfo) : List ClusterInfo := l.foldr insertCluster []

/-- `GetClusters`, translated from the source, starting from the loaded
config (the in-cluster guard and the kubeconfig file read, which precede
this logic in Go, fail the call before any of the listed behaviour and are
not modelled). -/
def GetClusters (cfg : KubeConfig) : List ClusterInfo :=
  sortClusters ((dedupKeep [] cfg.clusters).map
    (fun n => { Name := n, Current := n = currentClusterOf cfg : ClusterInfo }))

/-- The `userCounts[user]++` step of `findBestUserForCluster`: bump the
count of `u`, appending a fresh entry when absent. -/
def bump : List (String × Nat) → String → List (String × Nat)
  | [], u => [(u, 1)]
  | (k, c) :: t, u => if k = u then (k, c + 1) :: t else (k, c) :: bump t u

/-- The body of the tally loop of `findBestUserForCluster`. -/
def tallyStep (clusterName : String) (acc : List (String × Nat)) (c : String × KContext) :
    List (String × Nat) :=
  if c.2.cluster = clusterName then bump acc c.2.authInfo else acc

/-- The tally loop of `findBestUserForCluster`: one count per credential,
keyed in first-seen context order. -/
def tallyUsers (contexts : List (String × KContext)) (clusterName : String) :
    List (String × Nat) :=
  contexts.foldl (tallyStep clusterName) []

/-- The body of the max-scan loop of `findBestUserForCluster`
(`count > maxCount`, strict, so the first-seen entry wins ties). -/
def pickStep (best c : String × Nat) : String × Nat := if c.2 > best.2 then c else best

/-- The max-scan loop of `findBestUserForCluster`, starting from the Go
zero values. -/
def pickBest (counts : List (String × Nat)) : String × Nat := counts.foldl pickStep ("", 0)

/-- `findBestUserForCluster`, translated from the source.  Both failure
branches carry the spec's `CredentialNotFound` kind. -/
def findBestUserForCluster (cfg : KubeConfig) (clusterName : String) : Except KubeError String :=
  if tallyUsers cfg.contexts clusterName = [] then .error .credentialNotFound
  else if (pickBest (tallyUsers cfg.contexts clusterName)).1 ∈ cfg.authInfos then
    .ok (pickBest (tallyUsers cfg.contexts clusterName)).1
  else .error .credentialNotFound

/-- The per-credential context count the claim's tally describes. -/
def ctxTally (cfg : KubeConfig) (clusterName u : String) : Nat :=
  cfg.contexts.countP (fun c => decide (c.2.cluster = clusterName ∧ c.2.authInfo = u))

/-- First-match count lookup in a tally list (0 when absent). -/
def lookupCount : List (String × Nat) → String → Nat
  | [], _ => 0
  | (k, c) :: t, u => if k = u then c else lookupCount t u

/-! ## Claim-side specification functions -/

/-- The per-container rule of the status-derivation claim: a waiting state
with non-empty reason yields that reason; a terminated state with non-zero
exit code yields its reason, or `fallback` when the reason is empty; a
terminated state with exit code 0 never overrides. -/
def containerIssue (fallback : String) (cs : ContainerStatus) : Option String :=
  match cs.state.waiting, cs.state.terminated with
  | some w, some t =>
    if w.reason ≠ "" then some w.reason
    else if t.exitCode ≠ 0 then some (if t.reason ≠ "" then t.reason else fallback)
    else none
  | some w, none => if w.reason ≠ "" then some w.reason else none
  | none, some t =>
    if t.exitCode ≠ 0 then some (if t.reason ≠ "" then t.reason else fallback) else none
  | none, none => none

/-- The status-derivation claim, stated as a function: `"Terminating"` on a
deletion timestamp; otherwise, for phase Pending or Running, the first
overriding init container (fallback `"InitError"`), then the first
overriding regular container (fallback `"Error"`), declaration order,
first match wins; otherwise the phase string. -/
def statusClaim (pod : Pod) : String :=
  if pod.deletionTimestamp.isSome then "Terminating"
  else if pod.status.phase = PodPending ∨ pod.status.phase = PodRunning then
    match pod.status.initContainerStatuses.findSome? (containerIssue "InitError") with
    | some s => s
    | none =>
      match pod.status.containerStatuses.findSome? (containerIssue "Error") with
      | some s => s
      | none => pod.status.phase
  else pod.status.phase

/-- The trimmed, non-empty clauses of a selector. -/
def cleanClauses (selector : String) : List String :=
  ((goSplitComma selector).map goTrim).filter (fun c => c ≠ "")

/-- The clause grammar of the local-selector claim, on one trimmed
non-empty clause: `key=~pattern` matches iff the key exists and its value
satisfies the regex; `key=value` matches iff the key exists with exactly
that value; any other clause shape rejects the pod. -/
def clauseMatchesSpec (re : ReEngine) (m : Labels) (c : String) : Bool :=
  if goContains c "=~" then
    match breakOnSub "=~" c with
    | some (k, pat) =>
      match lookupLabel m (goTrim k), re (goTrim pat) with
      | some v, some matcher => matcher v
      | _, _ => false
    | none => false
  else if goContains c "=" && !goContains c "!=" then
    match breakOnSub "=" c with
    | some (k, v) => lookupLabel m (goTrim k) == some (goTrim v)
    | none => false
  else false

/-- Modelled from the spec: the native Kubernetes equality-based
label-selector semantics that `listPods` delegates to on the non-regex
path (the Kubernetes library evaluating the selector is outside this
repository).  A selector is a comma-separated list of `key=value`
requirements, all of which must hold of the pod's labels; a pod with a nil
label map has no labels. -/
def nativeSelectorMatches (labels : Option Labels) (selector : String) : Bool :=
  (cleanClauses selector).all (fun c =>
    match breakOnSub "=" c with
    | some (k, v) => lookupLabel (labels.getD []) (goTrim k) == some (goTrim v)
    | none => false)

/-- A trimmed clause of a shape neither branch of the matcher supports. -/
def unsupportedClause (c : String) : Bool :=
  !goContains c "=~" && !(goContains c "=" && !goContains c "!=")

/-- A trimmed regex clause whose pattern does not compile. -/
def invalidRegexClause (re : ReEngine) (c : String) : Bool :=
  goContains c "=~" &&
    (match breakOnSub "=~" c with
     | some (_, pat) => (re (goTrim pat)).isNone
     | none => false)

/-- A selector containing an unsupported or malformed clause, or an
invalid regex pattern. -/
def badSelector (re : ReEngine) (selector : String) : Bool :=
  (cleanClauses selector).any (fun c => unsupportedClause c || invalidRegexClause re c)

/-- A selector consisting only of exact-match clauses: at least one
(trimmed, non-empty) clause, every clause of shape `key=value` — it
contains `=` but neither the regex marker `=~` nor `!=`. -/
def exactOnlySelector (selector : String) : Prop :=
  cleanClauses selector ≠ [] ∧
    ∀ c ∈ cleanClauses selector,
      goContains c "=" = true ∧ goContains c "=~" = false ∧ goContains c "!=" = false

/-- The image-tag claim read literally: no colon, a slash after the last
colon, or whitespace-only text after the last colon give `"latest"`;
otherwise the tag is the text after the last colon, as written — without
trimming. -/
def extractImageTagClaimRule (image : String) : String :=
  match afterLastColon image.toList with
  | none => "latest"
  | some afterColon =>
    if afterColon.contains '/' then "latest"
    else if goTrim (String.mk afterColon) = "" then "latest"
    else String.mk afterColon

/-- The image-tag claim as amended: otherwise the tag is the text after
the last colon with surrounding whitespace trimmed. -/
def extractImageTagAmended (image : String) : String :=
  match afterLastColon image.toList with
  | none => "latest"
  | some afterColon =>
    if afterColon.contains '/' then "latest"
    else if goTrim (String.mk afterColon) = "" then "latest"
    else goTrim (String.mk afterColon)

/-! ## Concrete fixtures for witnesses and counterexamples -/

/-- A pod whose only declared container runs `image`. -/
def mkImagePod (image : String) : Pod :=
  { spec := { containers := [{ image := image }] } }

/-- The spec's status scenario: phase Running, one init container
terminated with exit code 0, one ready regular container. -/
def scenarioPod : Pod :=
  { status :=
    { phase := "Running"
      initContainerStatuses :=
        [{ state := { terminated := some { exitCode := 0, reason := "Completed" } } }]
      containerStatuses := [{ ready := true }] } }

/-- The spec's credential-selection scenario: three contexts referencing
cluster `"A"` with credentials u1, u1, u2. -/
def cfgC2 : KubeConfig :=
  { clusters := ["A"]
    contexts := [("c1", { cluster := "A", authInfo := "u1" }),
                 ("c2", { cluster := "A", authInfo := "u1" }),
                 ("c3", { cluster := "A", authInfo := "u2" })]
    authInfos := ["u1", "u2"]
    currentContext := "c1" }

/-- A config with no context referencing cluster `"Z"`. -/
def cfgNoRef : KubeConfig :=
  { clusters := ["Z"]
    contexts := [("c1", { cluster := "A", authInfo := "u1" })]
    authInfos := ["u1"] }

/-- A config whose current context resolves to cluster `"beta"`, with the
cluster names deliberately out of alphabetical order. -/
def cfgC3 : KubeConfig :=
  { clusters := ["alpha", "beta", "gamma"]
    contexts := [("main", { cluster := "beta", authInfo := "u" })]
    authInfos := ["u"]
    currentContext := "main" }

/-- A pod whose image carries whitespace around the tag. -/
def podC6 : Pod := mkImagePod "app: 1 "

/-- A regex engine on which every pattern fails to compile. -/
def reNone : ReEngine := fun _ => none

/-- A regex engine on which every pattern compiles and matches everything. -/
def reAll : ReEngine := fun _ => some (fun _ => true)

/-- A labelled pod used by the filtering witnesses. -/
def podNginx : Pod := { name := "web", labels := some [("app", "nginx")] }

/-- A pod with a nil label map. -/
def podBare : Pod := { name := "bare" }

/-- A single-pod list API used by the filtering witnesses. -/
def apiOnePod : String → Option String → Except KubeError (List Pod) :=
  fun _ _ => .ok [podNginx]

/-- The delete API of a cluster in which the requested pod does not exist. -/
def apiMissingPod : DeleteRequest → Except KubeError Unit := fun _ => .error .apiError

/-! ## Helper lemmas -/

lemma containerLoop_eq_findSome (fallback : String) :
    ∀ l : List ContainerStatus, containerLoop fallback l = l.findSome? (containerIssue fallback) := by
  intro l
  induction l with
  | nil => rfl
  | cons cs rest ih =>
    rw [List.findSome?_cons]
    cases hw : cs.state.waiting with
    | some w =>
      cases ht : cs.state.terminated with
      | some t =>
        by_cases hwr : w.reason = ""
        · by_cases hex : t.exitCode = 0 <;>
            simp [containerLoop, containerIssue, hw, ht, hwr, hex, ih]
        · simp [containerLoop, containerIssue, hw, ht, hwr]
      | none =>
        by_cases hwr : w.reason = "" <;>
          simp [containerLoop, containerIssue, hw, ht, hwr, ih]
    | none =>
      cases ht : cs.state.terminated with
      | some t =>
        by_cases hex : t.exitCode = 0 <;>
          simp [containerLoop, containerIssue, hw, ht, hex, ih]
      | none => simp [containerLoop, containerIssue, hw, ht, ih]

lemma buildInfos_regex (re : ReEngine) (now : Nat) (sel : String)
    (h : goContains sel "=~" = true) :
    ∀ pods, buildInfos re now sel pods =
      (pods.filter (fun p => matchesRegexSelector re p.labels sel)).map (podToPodInfo now) := by
  intro pods
  induction pods with
  | nil => rfl
  | cons p rest ih =>
    by_cases hm : matchesRegexSelector re p.labels sel <;>
      simp [buildInfos, h, hm, List.filter_cons, ih]

lemma buildInfos_plain (re : ReEngine) (now : Nat) (sel : String)
    (h : goContains sel "=~" = false) :
    ∀ pods, buildInfos re now sel pods = pods.map (podToPodInfo now) := by
  intro pods
  induction pods with
  | nil => rfl
  | cons p rest ih => simp [buildInfos, h, ih]

lemma breakOnSub_isSome (p s : String) : (breakOnSub p s).isSome = goContains s p := by
  unfold breakOnSub goContains
  cases breakOnList p.toList s.toList <;> rfl

lemma all_clean_eq (f : String → Bool) :
    ∀ l : List String,
      l.all (fun c => if goTrim c = "" then true else f (goTrim c)) =
        ((l.map goTrim).filter (fun c => c ≠ "")).all f := by
  intro l
  induction l with
  | nil => rfl
  | cons c rest ih =>
    by_cases h : goTrim c = ""
    · have hp : ¬(decide (goTrim c ≠ "") = true) := by simp [h]
      rw [List.all_cons, if_pos h, Bool.true_and, List.map_cons, List.filter_cons, if_neg hp, ih]
    · have hp : decide (goTrim c ≠ "") = true := by simp [h]
      rw [List.all_cons, if_neg h, List.map_cons, List.filter_cons, if_pos hp, List.all_cons, ih]

lemma matchClauses_eq_all (re : ReEngine) (m : Labels) :
    ∀ clauses, matchClauses re m clauses =
      clauses.all (fun c => if goTrim c = "" then true else clauseMatchesSpec re m (goTrim c)) := by
  intro clauses
  induction clauses with
  | nil => rfl
  | cons c rest ih =>
    rw [List.all_cons]
    by_cases h0 : goTrim c = ""
    · simp [matchClauses, h0, ih]
    · rw [if_neg h0]
      by_cases h1 : goContains (goTrim c) "=~" = true
      · cases hbr : breakOnSub "=~" (goTrim c) with
        | none => simp [matchClauses, h0, h1, hbr, clauseMatchesSpec]
        | some kp =>
          obtain ⟨k, pat⟩ := kp
          cases hl : lookupLabel m (goTrim k) with
          | none => simp [matchClauses, h0, h1, hbr, hl, clauseMatchesSpec]
          | some v =>
            cases hre : re (goTrim pat) with
            | none => simp [matchClauses, h0, h1, hbr, hl, hre, clauseMatchesSpec]
            | some matcher =>
              by_cases hmv : matcher v = true <;>
                simp [matchClauses, h0, h1, hbr, hl, hre, hmv, clauseMatchesSpec, ih]
      · by_cases h2 : (goContains (goTrim c) "=" && !goContains (goTrim c) "!=") = true
        · cases hbr : breakOnSub "=" (goTrim c) with
          | none =>
            exfalso
            have hs : (breakOnSub "=" (goTrim c)).isSome = true := by
              rw [breakOnSub_isSome]
              simp only [Bool.and_eq_true] at h2
              exact h2.1
            rw [hbr] at hs
            cases hs
          | some kv =>
            obtain ⟨k, v⟩ := kv
            cases hl : lookupLabel m (goTrim k) with
            | none => simp [matchClauses, h0, h1, h2, hbr, hl, clauseMatchesSpec]
            | some lv =>
              by_cases hv : lv = goTrim v <;>
                simp [matchClauses, h0, h1, h2, hbr, hl, hv, clauseMatchesSpec, ih]
        · simp [matchClauses, h0, h1, h2, clauseMatchesSpec]

lemma matchesRegexSelector_eq_clean (re : ReEngine) (m : Labels) (sel : String) :
    matchesRegexSelector re (some m) sel = (cleanClauses sel).all (clauseMatchesSpec re m) := by
  show matchClauses re m (goSplitComma sel) = _
  rw [matchClauses_eq_all, all_clean_eq]
  rfl

lemma clauseMatchesSpec_empty_labels (re : ReEngine) (c : String) :
    clauseMatchesSpec re [] c = false := by
  unfold clauseMatchesSpec
  by_cases h1 : goContains c "=~" = true
  · rw [if_pos h1]
    cases hbr : breakOnSub "=~" c with
    | none => rfl
    | some kp => cases kp with | mk k pat => simp [lookupLabel]
  · rw [if_neg h1]
    by_cases h2 : (goContains c "=" && !goContains c "!=") = true
    · rw [if_pos h2]
      cases hbr : breakOnSub "=" c with
      | none => rfl
      | some kv => cases kv with | mk k v => simp [lookupLabel]
    · rw [if_neg h2]

lemma badClause_rejects (re : ReEngine) (c : String)
    (h : (unsupportedClause c || invalidRegexClause re c) = true) (m : Labels) :
    clauseMatchesSpec re m c = false := by
  have h' := h
  simp only [Bool.or_eq_true] at h'
  rcases h' with hu | hi
  · unfold unsupportedClause at hu
    simp only [Bool.and_eq_true, Bool.not_eq_true'] at hu
    obtain ⟨hu1, hu2⟩ := hu
    unfold clauseMatchesSpec
    rw [if_neg (by simp [hu1]), if_neg (by simp [hu2])]
  · unfold invalidRegexClause at hi
    simp only [Bool.and_eq_true] at hi
    obtain ⟨hi1, hi2⟩ := hi
    unfold clauseMatchesSpec
    rw [if_pos hi1]
    cases hbr : breakOnSub "=~" c with
    | none => rfl
    | some kp =>
      cases kp with
      | mk k pat =>
        rw [hbr] at hi2
        simp only [Option.isNone_iff_eq_none] at hi2
        cases hl : lookupLabel m (goTrim k) <;> simp [hi2]

lemma badSelector_rejects (re : ReEngine) (sel : String) (h : badSelector re sel = true) :
    ∀ labels, matchesRegexSelector re labels sel = false := by
  intro labels
  cases labels with
  | none => rfl
  | some m =>
    rw [matchesRegexSelector_eq_clean]
    unfold badSelector at h
    rw [List.any_eq_true] at h
    obtain ⟨c, hc, hbad⟩ := h
    cases hB : (cleanClauses sel).all (clauseMatchesSpec re m) with
    | false => rfl
    | true =>
      exfalso
      have := List.all_eq_true.mp hB c hc
      rw [badClause_rejects re c hbad m] at this
      cases this

/-! ## Claim theorems -/

/-- C1.  Status derivation: `"Terminating"` on a deletion timestamp
short-circuits everything; otherwise, for phase Pending or Running, the
first overriding init container (waiting non-empty reason, or terminated
non-zero exit with fallback `"InitError"`) wins in declaration order, then
the first overriding regular container (fallback `"Error"`); zero-exit
terminated containers never override; otherwise the status is the phase
string.  Together with the spec's scenario: init container terminated with
exit 0 plus a ready regular container keeps status `"Running"`. -/
theorem getPodStatus_matches_claim :
    (∀ pod, getPodStatus pod = statusClaim pod) ∧ getPodStatus scenarioPod = "Running" := by
  refine ⟨fun pod => ?_, by decide⟩
  by_cases hd : pod.deletionTimestamp.isSome
  · simp [getPodStatus, statusClaim, hd]
  · by_cases hp : pod.status.phase = PodRunning ∨ pod.status.phase = PodPending
    · have hp' : pod.status.phase = PodPending ∨ pod.status.phase = PodRunning := hp.symm
      simp only [getPodStatus, statusClaim, hd, if_false, if_pos hp, if_pos hp',
        Bool.false_eq_true, containerLoop_eq_findSome]
    · have hp' : ¬(pod.status.phase = PodPending ∨ pod.status.phase = PodRunning) :=
        fun hc => hp hc.symm
      simp [getPodStatus, statusClaim, hd, hp, hp']

/-- C4.  Filtering-path dispatch of `listPods`: a selector containing
`"=~"` makes the engine fetch the unfiltered pod list (no selector passed
to the API) and filter locally with `matchesRegexSelector`; any other
selector is passed unchanged to the API and no local filtering happens. -/
theorem GetPods_dispatch (re : ReEngine)
    (api : String → Option String → Except KubeError (List Pod)) (now : Nat) (ns sel : String) :
    (goContains sel "=~" = true →
      GetPods re api now ns sel = (api (if ns = "all" then "" else ns) none).map
        (fun pods =>
          (pods.filter (fun p => matchesRegexSelector re p.labels sel)).map (podToPodInfo now))) ∧
    (goContains sel "=~" = false →
      GetPods re api now ns sel =
        (api (if ns = "all" then "" else ns) (if sel = "" then none else some sel)).map
          (fun pods => pods.map (podToPodInfo now))) := by
  constructor <;> intro h
  · cases hapi : api (if ns = "all" then "" else ns) none with
    | error e => simp [GetPods, h, hapi, Except.map]
    | ok pods => simp [GetPods, h, hapi, Except.map, buildInfos_regex re now sel h]
  · cases hapi : api (if ns = "all" then "" else ns) (if sel = "" then none else some sel) with
    | error e => simp [GetPods, h, hapi, Except.map]
    | ok pods => simp [GetPods, h, hapi, Except.map, buildInfos_plain re now sel h]

/-- Witness for C4 at a concrete regex selector, engine, and API. -/
theorem GetPods_dispatch_witness :
    goContains "app=~ng" "=~" = true ∧
    GetPods reAll apiOnePod 0 "default" "app=~ng" =
      (apiOnePod (if "default" = "all" then "" else "default") none).map
        (fun pods =>
          (pods.filter (fun p => matchesRegexSelector reAll p.labels "app=~ng")).map
            (podToPodInfo 0)) :=
  ⟨by decide, (GetPods_dispatch reAll apiOnePod 0 "default" "app=~ng").1 (by decide)⟩

/-- C6 counterexample.  The claim says the tag is the text after the last
colon, as written; the code trims surrounding whitespace, so on the image
`"app: 1 "` the code yields `"1"` while the claim's rule yields `" 1 "`. -/
theorem extractImageTag_claim_counterexample :
    extractImageTag podC6 ≠ extractImageTagClaimRule "app: 1 " ∧
    extractImageTag podC6 = "1" ∧ extractImageTagClaimRule "app: 1 " = " 1 " :=
  ⟨by decide, by decide, by decide⟩

/-- C6 as amended.  For a pod with at least one declared container the tag
comes from the first container's image: no colon, a slash after the last
colon, or an all-whitespace remainder give `"latest"`; otherwise the tag
is the text after the last colon trimmed of surrounding whitespace.  The
four round-trip examples hold. -/
theorem extractImageTag_amended (pod : Pod) (c : Container) (rest : List Container)
    (h : pod.spec.containers = c :: rest) :
    extractImageTag pod = extractImageTagAmended c.image ∧
    extractImageTag (mkImagePod "nginx:1.25") = "1.25" ∧
    extractImageTag (mkImagePod "myregistry.io:5000/app") = "latest" ∧
    extractImageTag (mkImagePod "app") = "latest" ∧
    extractImageTag (mkImagePod "app:") = "latest" := by
  refine ⟨?_, by decide, by decide, by decide, by decide⟩
  simp [extractImageTag, extractImageTagAmended, h]

/-- Witness for C6's amended theorem at a concrete pod. -/
theorem extractImageTag_amended_witness :
    (mkImagePod "app: 1 ").spec.containers = [{ image := "app: 1 " }] ∧
    (extractImageTag (mkImagePod "app: 1 ") = extractImageTagAmended "app: 1 " ∧
      extractImageTag (mkImagePod "nginx:1.25") = "1.25" ∧
      extractImageTag (mkImagePod "myregistry.io:5000/app") = "latest" ∧
      extractImageTag (mkImagePod "app") = "latest" ∧
      extractImageTag (mkImagePod "app:") = "latest") :=
  ⟨rfl, extractImageTag_amended (mkImagePod "app: 1 ") { image := "app: 1 " } [] rfl⟩

/-- C9 counterexample.  The claim says the engine issues a foreground
delete; the code passes the zero-value delete options, whose propagation
policy is unset, so the one request issued is not a foreground delete. -/
theorem DeletePod_foreground_counterexample :
    (DeletePod apiMissingPod "default" "web-1").2 =
      [{ ns := "default", podName := "web-1", options := { propagationPolicy := none } }] ∧
    ({ propagationPolicy := none } : DeleteOptions).propagationPolicy ≠
      some PropagationPolicy.foreground :=
  ⟨rfl, by decide⟩

/-- C9 as amended.  `deletePod` issues exactly one delete request, with the
default (zero-value) delete options and no explicit propagation policy; no
retry and no wait occur; the call result is exactly the API's answer, so
success means the API accepted the request, and every API failure
(including deleting a nonexistent pod) is surfaced to the caller. -/
theorem DeletePod_spec (api : DeleteRequest → Except KubeError Unit) (ns podName : String) :
    (DeletePod api ns podName).2 =
      [{ ns := ns, podName := podName, options := { propagationPolicy := none } }] ∧
    (DeletePod api ns podName).1 =
      api { ns := ns, podName := podName, options := { propagationPolicy := none } } ∧
    (∀ e, api { ns := ns, podName := podName, options := { propagationPolicy := none } } = .error e →
      (DeletePod api ns podName).1 = .error e) ∧
    (api { ns := ns, podName := podName, options := { propagationPolicy := none } } = .ok () →
      (DeletePod api ns podName).1 = .ok ()) :=
  ⟨rfl, rfl, fun _ h => h, fun h => h⟩

/-- Witness for C9: deleting a nonexistent pod surfaces the API error. -/
theorem DeletePod_spec_witness :
    (DeletePod apiMissingPod "default" "ghost").1 = .error KubeError.apiError :=
  (DeletePod_spec apiMissingPod "default" "ghost").2.2.1 .apiError rfl

/-- C10.  A pod with zero declared containers gets image tag `"unknown"`,
not `"latest"`. -/
theorem extractImageTag_noContainers (pod : Pod) (h : pod.spec.containers = []) :
    extractImageTag pod = "unknown" ∧ extractImageTag pod ≠ "latest" := by
  refine ⟨by simp [extractImageTag, h], ?_⟩
  simp [extractImageTag, h]

/-- Witness for C10 at a concrete container-less pod. -/
theorem extractImageTag_noContainers_witness :
    podBare.spec.containers = [] ∧
    (extractImageTag podBare = "unknown" ∧ extractImageTag podBare ≠ "latest") :=
  ⟨rfl, extractImageTag_noContainers podBare rfl⟩

lemma all_congr_mem {α : Type} {l : List α} {f g : α → Bool} (h : ∀ x ∈ l, f x = g x) :
    l.all f = l.all g := by
  induction l with
  | nil => rfl
  | cons a t ih =>
    rw [List.all_cons, List.all_cons, h a (List.mem_cons_self a t),
      ih (fun x hx => h x (List.mem_cons_of_mem a hx))]

/-- C5.  Local selector semantics: on a non-nil label map the matcher is
the conjunction, over all trimmed non-empty comma-separated clauses, of the
claim's clause grammar (`key=~pattern` regex membership, `key=value` exact
match, anything else rejects); a nil label map never matches; and a pod
with an empty label map fails every selector with at least one clause. -/
theorem matchesRegexSelector_spec :
    (∀ (re : ReEngine) (m : Labels) (sel : String),
      matchesRegexSelector re (some m) sel = (cleanClauses sel).all (clauseMatchesSpec re m)) ∧
    (∀ (re : ReEngine) (sel : String), matchesRegexSelector re none sel = false) ∧
    (∀ (re : ReEngine) (sel : String), cleanClauses sel ≠ [] →
      matchesRegexSelector re (some []) sel = false) := by
  refine ⟨matchesRegexSelector_eq_clean, fun re sel => rfl, fun re sel h => ?_⟩
  rw [matchesRegexSelector_eq_clean]
  cases hcl : cleanClauses sel with
  | nil => exact absurd hcl h
  | cons c cs => rw [List.all_cons, clauseMatchesSpec_empty_labels, Bool.false_and]

/-- Witness for C5: a pod with no labels fails a one-clause selector. -/
theorem matchesRegexSelector_spec_witness :
    cleanClauses "app=nginx" ≠ [] ∧ matchesRegexSelector reNone (some []) "app=nginx" = false :=
  ⟨by decide, matchesRegexSelector_spec.2.2 reNone "app=nginx" (by decide)⟩

/-- C7.  Fail-closed recovery on the local filtering path: whenever the
API list call succeeds, `listPods` succeeds — malformed clauses and
non-compiling regex patterns never turn into a call-level error; they only
exclude pods from the result (with a bad clause every pod fails the
selector, so the call still returns `ok` with the matching — here, no —
pods). -/
theorem GetPods_failClosed (re : ReEngine)
    (api : String → Option String → Except KubeError (List Pod)) (now : Nat)
    (ns sel : String) (pods : List Pod)
    (hre : goContains sel "=~" = true)
    (hok : api (if ns = "all" then "" else ns) none = .ok pods) :
    GetPods re api now ns sel =
      .ok ((pods.filter (fun p => matchesRegexSelector re p.labels sel)).map (podToPodInfo now)) ∧
    (badSelector re sel = true → GetPods re api now ns sel = .ok []) := by
  have hmain : GetPods re api now ns sel =
      .ok ((pods.filter (fun p => matchesRegexSelector re p.labels sel)).map (podToPodInfo now)) := by
    simp [GetPods, hre, hok, buildInfos_regex re now sel hre]
  refine ⟨hmain, fun hbad => ?_⟩
  rw [hmain]
  have hfil : pods.filter (fun p => matchesRegexSelector re p.labels sel) = [] := by
    rw [List.filter_eq_nil_iff]
    intro p _
    simp [badSelector_rejects re sel hbad p.labels]
  rw [hfil]
  rfl

/-- Witness for C7 at a selector whose regex pattern does not compile. -/
theorem GetPods_failClosed_witness :
    goContains "app=~[" "=~" = true ∧
    (GetPods reNone apiOnePod 0 "default" "app=~[" =
        .ok (([podNginx].filter
          (fun p => matchesRegexSelector reNone p.labels "app=~[")).map (podToPodInfo 0)) ∧
      (badSelector reNone "app=~[" = true →
        GetPods reNone apiOnePod 0 "default" "app=~[" = .ok [])) :=
  ⟨by decide,
   GetPods_failClosed reNone apiOnePod 0 "default" "app=~[" [podNginx] (by decide) rfl⟩

/-- C8.  Dual-path equivalence: on a selector made only of exact-match
clauses, the engine's local matcher agrees with the native equality-based
label-selector semantics on every label map, hence filtering any pod set
through either path gives the same result set. -/
theorem exactSelector_dualPath (re : ReEngine) (sel : String) (h : exactOnlySelector sel) :
    (∀ labels, matchesRegexSelector re labels sel = nativeSelectorMatches labels sel) ∧
    (∀ pods : List Pod,
      pods.filter (fun p => matchesRegexSelector re p.labels sel) =
        pods.filter (fun p => nativeSelectorMatches p.labels sel)) := by
  obtain ⟨hne, hall⟩ := h
  have hpoint : ∀ labels, matchesRegexSelector re labels sel = nativeSelectorMatches labels sel := by
    intro labels
    cases labels with
    | none =>
      show false = nativeSelectorMatches none sel
      unfold nativeSelectorMatches
      cases hcl : cleanClauses sel with
      | nil => exact absurd hcl hne
      | cons c cs =>
        have hc : c ∈ cleanClauses sel := by
          rw [hcl]
          exact List.mem_cons_self c cs
        obtain ⟨hceq, hcre, hcneq⟩ := hall c hc
        have hs : (breakOnSub "=" c).isSome = true := by
          rw [breakOnSub_isSome]
          exact hceq
        obtain ⟨kv, hkv⟩ := Option.isSome_iff_exists.mp hs
        obtain ⟨k, v⟩ := kv
        rw [List.all_cons, hkv]
        simp [lookupLabel]
    | some m =>
      rw [matchesRegexSelector_eq_clean]
      unfold nativeSelectorMatches
      apply all_congr_mem
      intro c hc
      obtain ⟨hceq, hcre, hcneq⟩ := hall c hc
      unfold clauseMatchesSpec
      rw [if_neg (by simp [hcre]), if_pos (by simp [hceq, hcneq])]
      cases hkv : breakOnSub "=" c with
      | none => rfl
      | some kv =>
        obtain ⟨k, v⟩ := kv
        simp
  refine ⟨hpoint, fun pods => ?_⟩
  have hfun : (fun p : Pod => matchesRegexSelector re p.labels sel) =
      (fun p : Pod => nativeSelectorMatches p.labels sel) := funext fun p => hpoint p.labels
  rw [hfun]

/-- Witness for C8 at a concrete exact-match selector and label map. -/
theorem exactSelector_dualPath_witness :
    matchesRegexSelector reNone (some [("app", "nginx")]) "app=nginx" =
      nativeSelectorMatches (some [("app", "nginx")]) "app=nginx" :=
  (exactSelector_dualPath reNone "app=nginx" ⟨by decide, by decide⟩).1 (some [("app", "nginx")])

lemma tallyUsers_nil (contexts : List (String × KContext)) (n : String)
    (h : ∀ c ∈ contexts, ¬c.2.cluster = n) : tallyUsers contexts n = [] := by
  unfold tallyUsers
  induction contexts with
  | nil => rfl
  | cons c t ih =>
    rw [List.foldl_cons]
    have hc : tallyStep n [] c = [] := by
      unfold tallyStep
      rw [if_neg (h c (List.mem_cons_self c t))]
    rw [hc]
    exact ih (fun x hx => h x (List.mem_cons_of_mem c hx))

lemma bump_lookup (v u : String) :
    ∀ acc, lookupCount (bump acc v) u = lookupCount acc u + (if v = u then 1 else 0) := by
  intro acc
  induction acc with
  | nil =>
    by_cases h : v = u <;> simp [bump, lookupCount, h]
  | cons e t ih =>
    obtain ⟨k, c⟩ := e
    by_cases hk : k = v
    · subst hk
      by_cases hu : k = u
      · subst hu
        simp [bump, lookupCount]
      · simp [bump, lookupCount, hu]
    · by_cases hu : k = u
      · subst hu
        have hvu : ¬v = k := fun hvu => hk hvu.symm
        simp [bump, lookupCount, hk, hvu]
      · simp [bump, lookupCount, hk, hu, ih]

lemma tally_foldl_lookup (n u : String) :
    ∀ (l : List (String × KContext)) (acc : List (String × Nat)),
      lookupCount (l.foldl (tallyStep n) acc) u =
        lookupCount acc u + l.countP (fun c => decide (c.2.cluster = n ∧ c.2.authInfo = u)) := by
  intro l
  induction l with
  | nil => intro acc; simp
  | cons c t ih =>
    intro acc
    rw [List.foldl_cons, ih, List.countP_cons]
    by_cases hc : c.2.cluster = n
    · by_cases ha : c.2.authInfo = u
      · have hp : decide (c.2.cluster = n ∧ c.2.authInfo = u) = true := by simp [hc, ha]
        have hb : tallyStep n acc c = bump acc c.2.authInfo := by
          unfold tallyStep
          rw [if_pos hc]
        rw [hb, bump_lookup, if_pos ha]
        simp only [hp, if_true]
        omega
      · have hp : decide (c.2.cluster = n ∧ c.2.authInfo = u) = false := by simp [ha]
        have hb : tallyStep n acc c = bump acc c.2.authInfo := by
          unfold tallyStep
          rw [if_pos hc]
        rw [hb, bump_lookup, if_neg ha]
        simp only [hp, Bool.false_eq_true, if_false]
        omega
    · have hp : decide (c.2.cluster = n ∧ c.2.authInfo = u) = false := by simp [hc]
      have hb : tallyStep n acc c = acc := by
        unfold tallyStep
        rw [if_neg hc]
      rw [hb]
      simp only [hp, Bool.false_eq_true, if_false]
      omega

lemma tallyUsers_lookup (contexts : List (String × KContext)) (n u : String) :
    lookupCount (tallyUsers contexts n) u =
      contexts.countP (fun c => decide (c.2.cluster = n ∧ c.2.authInfo = u)) := by
  unfold tallyUsers
  rw [tally_foldl_lookup]
  simp [lookupCount]

lemma bump_keys_mem :
    ∀ (l : List (String × Nat)) (v x : String),
      x ∈ (bump l v).map Prod.fst → x ∈ l.map Prod.fst ∨ x = v := by
  intro l
  induction l with
  | nil =>
    intro v x hx
    simp [bump] at hx
    right
    exact hx
  | cons e t ih =>
    obtain ⟨k, c⟩ := e
    intro v x hx
    by_cases hk : k = v
    · subst hk
      simp [bump] at hx
      rcases hx with h1 | h1
      · left
        simp [h1]
      · left
        simp [h1]
    · simp [bump, hk] at hx
      rcases hx with h1 | h1
      · left
        simp [h1]
      · rcases ih v x (by simpa using h1) with h2 | h2
        · left
          simp
          right
          simpa using h2
        · right
          exact h2

lemma bump_keys_nodup :
    ∀ (l : List (String × Nat)) (v : String),
      (l.map Prod.fst).Nodup → ((bump l v).map Prod.fst).Nodup := by
  intro l
  induction l with
  | nil =>
    intro v _
    simp [bump]
  | cons e t ih =>
    obtain ⟨k, c⟩ := e
    intro v h
    rw [List.map_cons, List.nodup_cons] at h
    obtain ⟨hkn, ht⟩ := h
    by_cases hk : k = v
    · subst hk
      have hb : bump ((k, c) :: t) k = (k, c + 1) :: t := by simp [bump]
      rw [hb, List.map_cons, List.nodup_cons]
      exact ⟨hkn, ht⟩
    · have hb : bump ((k, c) :: t) v = (k, c) :: bump t v := by simp [bump, hk]
      rw [hb, List.map_cons, List.nodup_cons]
      refine ⟨?_, ih v ht⟩
      intro hmem
      rcases bump_keys_mem t v k hmem with h1 | h1
      · exact hkn h1
      · exact hk h1

lemma tally_keys_nodup (n : String) :
    ∀ (l : List (String × KContext)) (acc : List (String × Nat)),
      (acc.map Prod.fst).Nodup → ((l.foldl (tallyStep n) acc).map Prod.fst).Nodup := by
  intro l
  induction l with
  | nil => intro acc h; exact h
  | cons c t ih =>
    intro acc h
    rw [List.foldl_cons]
    apply ih
    unfold tallyStep
    by_cases hc : c.2.cluster = n
    · rw [if_pos hc]
      exact bump_keys_nodup acc c.2.authInfo h
    · rw [if_neg hc]
      exact h

lemma bump_pos :
    ∀ (l : List (String × Nat)) (v : String),
      (∀ e ∈ l, 0 < e.2) → ∀ e ∈ bump l v, 0 < e.2 := by
  intro l
  induction l with
  | nil =>
    intro v _ e he
    simp [bump] at he
    simp [he]
  | cons x t ih =>
    obtain ⟨k, c⟩ := x
    intro v h e he
    by_cases hk : k = v
    · subst hk
      have hb : bump ((k, c) :: t) k = (k, c + 1) :: t := by simp [bump]
      rw [hb] at he
      rcases List.mem_cons.mp he with h1 | h1
      · rw [h1]
        exact Nat.succ_pos c
      · exact h e (List.mem_cons_of_mem _ h1)
    · have hb : bump ((k, c) :: t) v = (k, c) :: bump t v := by simp [bump, hk]
      rw [hb] at he
      rcases List.mem_cons.mp he with h1 | h1
      · rw [h1]
        exact h (k, c) (List.mem_cons_self _ _)
      · exact ih v (fun x hx => h x (List.mem_cons_of_mem _ hx)) e h1

lemma tally_pos (n : String) :
    ∀ (l : List (String × KContext)) (acc : List (String × Nat)),
      (∀ e ∈ acc, 0 < e.2) → ∀ e ∈ l.foldl (tallyStep n) acc, 0 < e.2 := by
  intro l
  induction l with
  | nil => intro acc h; exact h
  | cons c t ih =>
    intro acc h
    rw [List.foldl_cons]
    apply ih
    unfold tallyStep
    by_cases hc : c.2.cluster = n
    · rw [if_pos hc]
      exact bump_pos acc c.2.authInfo h
    · rw [if_neg hc]
      exact h

lemma lookup_mem :
    ∀ (l : List (String × Nat)) (u : String),
      lookupCount l u ≠ 0 → (u, lookupCount l u) ∈ l := by
  intro l
  induction l with
  | nil =>
    intro u h
    exact absurd rfl h
  | cons e t ih =>
    obtain ⟨k, c⟩ := e
    intro u h
    by_cases hk : k = u
    · subst hk
      simp only [lookupCount, if_pos rfl] at h ⊢
      exact List.mem_cons_self _ _
    · simp only [lookupCount, if_neg hk] at h ⊢
      exact List.mem_cons_of_mem _ (ih u h)

lemma lookup_of_mem_nodup :
    ∀ (l : List (String × Nat)) (u : String) (c : Nat),
      (l.map Prod.fst).Nodup → (u, c) ∈ l → lookupCount l u = c := by
  intro l
  induction l with
  | nil =>
    intro u c _ hm
    exact absurd hm (List.not_mem_nil _)
  | cons e t ih =>
    obtain ⟨k, c0⟩ := e
    intro u c hnd hm
    rw [List.map_cons, List.nodup_cons] at hnd
    obtain ⟨hkn, ht⟩ := hnd
    rcases List.mem_cons.mp hm with h1 | h1
    · cases h1
      simp [lookupCount]
    · by_cases hk : k = u
      · exfalso
        apply hkn
        rw [hk]
        exact List.mem_map.mpr ⟨(u, c), h1, rfl⟩
      · simp only [lookupCount, if_neg hk]
        exact ih u c ht h1

lemma pickBest_foldl_spec :
    ∀ (l : List (String × Nat)) (b : String × Nat),
      (l.foldl pickStep b = b ∨ l.foldl pickStep b ∈ l) ∧
      b.2 ≤ (l.foldl pickStep b).2 ∧
      ∀ e ∈ l, e.2 ≤ (l.foldl pickStep b).2 := by
  intro l
  induction l with
  | nil =>
    intro b
    exact ⟨Or.inl rfl, le_refl _, fun e he => absurd he (List.not_mem_nil _)⟩
  | cons c t ih =>
    intro b
    rw [List.foldl_cons]
    obtain ⟨hmem, hble, hall⟩ := ih (pickStep b c)
    have hb : b.2 ≤ (pickStep b c).2 := by
      unfold pickStep
      by_cases h : c.2 > b.2
      · rw [if_pos h]
        omega
      · rw [if_neg h]
    have hc : c.2 ≤ (pickStep b c).2 := by
      unfold pickStep
      by_cases h : c.2 > b.2
      · rw [if_pos h]
      · rw [if_neg h]
        omega
    refine ⟨?_, le_trans hb hble, ?_⟩
    · rcases hmem with h1 | h1
      · by_cases h : c.2 > b.2
        · have hpc : pickStep b c = c := by
            unfold pickStep
            rw [if_pos h]
          right
          rw [h1, hpc]
          exact List.mem_cons_self _ _
        · have hpc : pickStep b c = b := by
            unfold pickStep
            rw [if_neg h]
          left
          rw [h1, hpc]
      · right
        exact List.mem_cons_of_mem c h1
    · intro e he
      rcases List.mem_cons.mp he with h1 | h1
      · rw [h1]
        exact le_trans hc hble
      · exact hall e h1

/-- C2.  Best-credential selection: with no context referencing the target
cluster the call fails with `CredentialNotFound`; a successful call
returns a credential present in the credential set whose context tally is
maximal among all credentials; a chosen credential absent from the
credential set also fails with `CredentialNotFound`; and on the spec's
scenario (three contexts on cluster `"A"` with credentials u1, u1, u2)
the call selects u1. -/
theorem findBestUserForCluster_spec :
    (∀ (cfg : KubeConfig) (clusterName : String),
      (∀ c ∈ cfg.contexts, ¬c.2.cluster = clusterName) →
        findBestUserForCluster cfg clusterName = .error KubeError.credentialNotFound) ∧
    (∀ (cfg : KubeConfig) (clusterName u : String),
      findBestUserForCluster cfg clusterName = .ok u →
        u ∈ cfg.authInfos ∧ ∀ v, ctxTally cfg clusterName v ≤ ctxTally cfg clusterName u) ∧
    (∀ (cfg : KubeConfig) (clusterName : String),
      tallyUsers cfg.contexts clusterName ≠ [] →
        (pickBest (tallyUsers cfg.contexts clusterName)).1 ∉ cfg.authInfos →
        findBestUserForCluster cfg clusterName = .error KubeError.credentialNotFound) ∧
    findBestUserForCluster cfgC2 "A" = .ok "u1" := by
  refine ⟨?_, ?_, ?_, by decide⟩
  · intro cfg clusterName h
    have ht : tallyUsers cfg.contexts clusterName = [] := tallyUsers_nil cfg.contexts clusterName h
    simp [findBestUserForCluster, ht]
  · intro cfg clusterName u h
    by_cases ht : tallyUsers cfg.contexts clusterName = []
    · simp [findBestUserForCluster, ht] at h
    · by_cases hm : (pickBest (tallyUsers cfg.contexts clusterName)).1 ∈ cfg.authInfos
      · have hu : (pickBest (tallyUsers cfg.contexts clusterName)).1 = u := by
          simp only [findBestUserForCluster, if_neg ht, if_pos hm, Except.ok.injEq] at h
          exact h
        constructor
        · rw [← hu]
          exact hm
        · intro v
          have hpos : ∀ e ∈ tallyUsers cfg.contexts clusterName, 0 < e.2 :=
            tally_pos clusterName cfg.contexts []
              (fun e he => absurd he (List.not_mem_nil e))
          have hspec := pickBest_foldl_spec (tallyUsers cfg.contexts clusterName) ("", 0)
          have hpmem : pickBest (tallyUsers cfg.contexts clusterName) ∈
              tallyUsers cfg.contexts clusterName := by
            rcases hspec.1 with h1 | h1
            · exfalso
              cases htl : tallyUsers cfg.contexts clusterName with
              | nil => exact ht htl
              | cons e t =>
                have he2 := hspec.2.2 e (by rw [htl]; exact List.mem_cons_self _ _)
                have hez : 0 < e.2 := hpos e (by rw [htl]; exact List.mem_cons_self _ _)
                rw [h1] at he2
                omega
            · exact h1
          have hknd : ((tallyUsers cfg.contexts clusterName).map Prod.fst).Nodup :=
            tally_keys_nodup clusterName cfg.contexts [] (by simp)
          have hlu : lookupCount (tallyUsers cfg.contexts clusterName)
              (pickBest (tallyUsers cfg.contexts clusterName)).1 =
              (pickBest (tallyUsers cfg.contexts clusterName)).2 := by
            apply lookup_of_mem_nodup _ _ _ hknd
            rw [Prod.mk.eta]
            exact hpmem
          have hctx_u : ctxTally cfg clusterName u =
              (pickBest (tallyUsers cfg.contexts clusterName)).2 := by
            rw [ctxTally, ← tallyUsers_lookup, ← hu, hlu]
          by_cases hz : lookupCount (tallyUsers cfg.contexts clusterName) v = 0
          · rw [ctxTally, ← tallyUsers_lookup, hz, hctx_u]
            omega
          · have hvm := lookup_mem (tallyUsers cfg.contexts clusterName) v hz
            have hvle := hspec.2.2 _ hvm
            rw [ctxTally, ← tallyUsers_lookup, hctx_u]
            exact hvle
      · simp [findBestUserForCluster, ht, hm] at h
  · intro cfg clusterName h1 h2
    simp [findBestUserForCluster, h1, h2]

/-- Witness for C2: the no-context case fails with `CredentialNotFound`,
and on the spec scenario the selected credential u1 is in the credential
set. -/
theorem findBestUserForCluster_spec_witness :
    findBestUserForCluster cfgNoRef "Z" = .error KubeError.credentialNotFound ∧
    "u1" ∈ cfgC2.authInfos :=
  ⟨findBestUserForCluster_spec.1 cfgNoRef "Z" (by decide),
   (findBestUserForCluster_spec.2.1 cfgC2 "A" "u1" (by decide)).1⟩

lemma charListLt_asymm : ∀ x y : List Char, charListLt x y = true → charListLt y x = false := by
  intro x
  induction x with
  | nil =>
    intro y h
    cases y with
    | nil => cases h
    | cons b bs => rfl
  | cons a as ih =>
    intro y h
    cases y with
    | nil => cases h
    | cons b bs =>
      by_cases hab : a < b
      · have hba : ¬b < a := lt_asymm hab
        simp [charListLt, hab, hba]
      · by_cases hba : b < a
        · simp [charListLt, hab, hba] at h
        · simp only [charListLt, if_neg hab, if_neg hba] at h ⊢
          exact ih bs h

lemma strLt_asymm (a b : String) (h : strLt a b = true) : strLt b a = false :=
  charListLt_asymm a.toList b.toList h

lemma clusterLess_asymm {a b : ClusterInfo} (h : ¬(a.Current = true ∧ b.Current = true))
    (hlt : clusterLess a b = true) : clusterLess b a = false := by
  unfold clusterLess at hlt ⊢
  by_cases ha : a.Current = true
  · have hb : b.Current = false := by
      cases hbv : b.Current
      · rfl
      · exact absurd ⟨ha, hbv⟩ h
    rw [if_neg (by simp [hb]), if_pos ha]
  · rw [if_neg ha] at hlt
    by_cases hbv : b.Current = true
    · rw [if_pos hbv] at hlt
      cases hlt
    · rw [if_neg hbv] at hlt
      rw [if_neg hbv, if_neg ha]
      exact strLt_asymm _ _ hlt

lemma insertCluster_perm (a : ClusterInfo) : ∀ l, (insertCluster a l).Perm (a :: l) := by
  intro l
  induction l with
  | nil => exact List.Perm.refl _
  | cons b t ih =>
    unfold insertCluster
    by_cases h : clusterLess a b = true
    · rw [if_pos h]
    · rw [if_neg h]
      exact (ih.cons b).trans (List.Perm.swap a b t)

lemma sortClusters_perm : ∀ l, (sortClusters l).Perm l := by
  intro l
  induction l with
  | nil => exact List.Perm.refl _
  | cons a t ih => exact (insertCluster_perm a (sortClusters t)).trans (ih.cons a)

lemma chain_insertCluster (a : ClusterInfo) :
    ∀ l, l.Chain' (fun x y => clusterLess y x = false) →
      (∀ b ∈ l, ¬(a.Current = true ∧ b.Current = true)) →
      (insertCluster a l).Chain' (fun x y => clusterLess y x = false) := by
  intro l
  induction l with
  | nil =>
    intro _ _
    simp [insertCluster]
  | cons b t ih =>
    intro hch hnb
    unfold insertCluster
    by_cases h : clusterLess a b = true
    · rw [if_pos h, List.chain'_cons]
      exact ⟨clusterLess_asymm (hnb b (List.mem_cons_self b t)) h, hch⟩
    · rw [if_neg h, List.chain'_cons']
      have hab : clusterLess a b = false := Bool.eq_false_iff.mpr h
      constructor
      · intro y hy
        cases t with
        | nil =>
          simp [insertCluster] at hy
          rw [← hy]
          exact hab
        | cons c ts =>
          by_cases hac : clusterLess a c = true
          · simp only [insertCluster, if_pos hac, List.head?_cons, Option.mem_def,
              Option.some.injEq] at hy
            rw [← hy]
            exact hab
          · simp only [insertCluster, if_neg hac, List.head?_cons, Option.mem_def,
              Option.some.injEq] at hy
            rw [List.chain'_cons] at hch
            rw [← hy]
            exact hch.1
      · exact ih hch.tail (fun x hx => hnb x (List.mem_cons_of_mem b hx))

lemma sortClusters_chain :
    ∀ l, l.Pairwise (fun x y => ¬(x.Current = true ∧ y.Current = true)) →
      (sortClusters l).Chain' (fun x y => clusterLess y x = false) := by
  intro l
  induction l with
  | nil =>
    intro _
    simp [sortClusters]
  | cons a t ih =>
    intro hp
    rw [List.pairwise_cons] at hp
    obtain ⟨ha, ht⟩ := hp
    show (insertCluster a (sortClusters t)).Chain' _
    apply chain_insertCluster
    · exact ih ht
    · intro b hb
      exact ha b ((sortClusters_perm t).mem_iff.mp hb)

lemma chain_head_current :
    ∀ (l : List ClusterInfo), l.Chain' (fun x y => clusterLess y x = false) →
      ∀ c ∈ l, c.Current = true → ∃ x t, l = x :: t ∧ x.Current = true := by
  intro l
  induction l with
  | nil =>
    intro _ c hc _
    exact absurd hc (List.not_mem_nil c)
  | cons x t ih =>
    intro hch c hc hcur
    by_cases hx : x.Current = true
    · exact ⟨x, t, rfl, hx⟩
    · have hct : c ∈ t := by
        rcases List.mem_cons.mp hc with h1 | h1
        · exact absurd (h1 ▸ hcur) hx
        · exact h1
      obtain ⟨y, ts, hty, hy⟩ := ih hch.tail c hct hcur
      exfalso
      rw [hty, List.chain'_cons] at hch
      have hyx := hch.1
      unfold clusterLess at hyx
      rw [if_pos hy] at hyx
      cases hyx

lemma dedupKeep_id : ∀ (l seen : List String), (∀ n ∈ l, n ∉ seen) → l.Nodup →
    dedupKeep seen l = l := by
  intro l
  induction l with
  | nil =>
    intro seen _ _
    rfl
  | cons n t ih =>
    intro seen hns hnd
    rw [List.nodup_cons] at hnd
    obtain ⟨hn, ht⟩ := hnd
    unfold dedupKeep
    rw [if_neg (hns n (List.mem_cons_self n t))]
    congr 1
    apply ih
    · intro m hm hc
      rcases List.mem_cons.mp hc with h1 | h1
      · exact hn (h1 ▸ hm)
      · exact hns m (List.mem_cons_of_mem n hm) h1
    · exact ht

lemma countP_mk_current :
    ∀ (names : List String) (cur : String), names.Nodup → cur ∈ names →
      (names.map (fun n => ({ Name := n, Current := n = cur } : ClusterInfo))).countP
        (fun c => c.Current) = 1 := by
  intro names
  induction names with
  | nil =>
    intro cur _ h
    exact absurd h (List.not_mem_nil cur)
  | cons n t ih =>
    intro cur hnd hmem
    rw [List.nodup_cons] at hnd
    obtain ⟨hn, ht⟩ := hnd
    rw [List.map_cons, List.countP_cons]
    by_cases hcur : n = cur
    · subst hcur
      have h0 : (t.map (fun m => ({ Name := m, Current := m = n } : ClusterInfo))).countP
          (fun c => c.Current) = 0 := by
        rw [List.countP_eq_zero]
        intro c hc
        rw [List.mem_map] at hc
        obtain ⟨m, hm, hmc⟩ := hc
        rw [← hmc]
        simp only [decide_eq_true_eq]
        exact fun he => hn (he ▸ hm)
      rw [h0]
      simp
    · have hmem' : cur ∈ t := by
        rcases List.mem_cons.mp hmem with h1 | h1
        · exact absurd h1.symm hcur
        · exact h1
      rw [ih cur ht hmem']
      simp [hcur]

lemma chain_noncur_names :
    ∀ (t : List ClusterInfo), (∀ c ∈ t, c.Current = false) →
      t.Chain' (fun x y => clusterLess y x = false) →
      t.Chain' (fun a b => strLe a.Name b.Name = true) := by
  intro t
  induction t with
  | nil =>
    intro _ _
    simp
  | cons a rest ih =>
    intro hnc hch
    rw [List.chain'_cons'] at hch ⊢
    obtain ⟨hhead, htail⟩ := hch
    refine ⟨?_, ih (fun c hc => hnc c (List.mem_cons_of_mem a hc)) htail⟩
    intro y hy
    have h1 := hhead y hy
    have hay : a.Current = false := hnc a (List.mem_cons_self a rest)
    have hyc : y.Current = false :=
      hnc y (List.mem_cons_of_mem a (List.mem_of_mem_head? hy))
    unfold clusterLess at h1
    rw [if_neg (by simp [hyc]), if_neg (by simp [hay])] at h1
    unfold strLe
    rw [h1]
    rfl

/-- C3.  Cluster listing: for a loaded kubeconfig with unique cluster
names whose current context resolves to a cluster present in the config,
`GetClusters` returns one entry per cluster name (the returned names are a
permutation of the config's cluster names), marks exactly one entry
current — the cluster referenced by the current context — and that entry
is first, with the remaining entries non-current and sorted ascending by
name. -/
theorem GetClusters_spec (cfg : KubeConfig)
    (hnd : cfg.clusters.Nodup)
    (hcur : currentClusterOf cfg ∈ cfg.clusters) :
    ∃ rest,
      GetClusters cfg = { Name := currentClusterOf cfg, Current := true } :: rest ∧
      ((GetClusters cfg).map ClusterInfo.Name).Perm cfg.clusters ∧
      (GetClusters cfg).countP (fun c => c.Current) = 1 ∧
      rest.Chain' (fun a b => strLe a.Name b.Name = true) ∧
      ∀ c ∈ rest, c.Current = false := by
  have hded : dedupKeep [] cfg.clusters = cfg.clusters :=
    dedupKeep_id cfg.clusters [] (fun n _ hc => List.not_mem_nil n hc) hnd
  have hGet : GetClusters cfg = sortClusters (cfg.clusters.map
      (fun n => ({ Name := n, Current := n = currentClusterOf cfg } : ClusterInfo))) := by
    unfold GetClusters
    rw [hded]
  have hperm : (sortClusters (cfg.clusters.map
      (fun n => ({ Name := n, Current := n = currentClusterOf cfg } : ClusterInfo)))).Perm
      (cfg.clusters.map (fun n => ({ Name := n, Current := n = currentClusterOf cfg } : ClusterInfo))) :=
    sortClusters_perm _
  have hpair : (cfg.clusters.map
      (fun n => ({ Name := n, Current := n = currentClusterOf cfg } : ClusterInfo))).Pairwise
      (fun x y => ¬(x.Current = true ∧ y.Current = true)) := by
    refine List.Pairwise.map _ ?_ hnd
    intro a b hab hc
    obtain ⟨ha, hb⟩ := hc
    simp only [decide_eq_true_eq] at ha hb
    exact hab (ha.trans hb.symm)
  have hchain := sortClusters_chain _ hpair
  have hcmem : ({ Name := currentClusterOf cfg, Current := true } : ClusterInfo) ∈
      cfg.clusters.map (fun n => ({ Name := n, Current := n = currentClusterOf cfg } : ClusterInfo)) :=
    List.mem_map.mpr ⟨currentClusterOf cfg, hcur, by simp⟩
  have hcmem' := hperm.mem_iff.mpr hcmem
  obtain ⟨x, rest, hxrest, hx⟩ := chain_head_current _ hchain _ hcmem' rfl
  have hxent : x ∈ cfg.clusters.map
      (fun n => ({ Name := n, Current := n = currentClusterOf cfg } : ClusterInfo)) := by
    apply hperm.mem_iff.mp
    rw [hxrest]
    exact List.mem_cons_self x rest
  obtain ⟨nx, hnx, hxeq⟩ := List.mem_map.mp hxent
  have hnxcur : nx = currentClusterOf cfg := by
    have hx' := hx
    rw [← hxeq] at hx'
    simpa using hx'
  have hxval : x = { Name := currentClusterOf cfg, Current := true } := by
    rw [← hxeq, hnxcur]
    simp
  have hcnt : (sortClusters (cfg.clusters.map
      (fun n => ({ Name := n, Current := n = currentClusterOf cfg } : ClusterInfo)))).countP
      (fun c => c.Current) = 1 := by
    rw [hperm.countP_eq]
    exact countP_mk_current cfg.clusters (currentClusterOf cfg) hnd hcur
  have hrest0 : ∀ c ∈ rest, c.Current = false := by
    have hcnt' := hcnt
    rw [hxrest, List.countP_cons] at hcnt'
    simp [hx] at hcnt'
    exact hcnt'
  have hrestch : rest.Chain' (fun a b => strLe a.Name b.Name = true) := by
    apply chain_noncur_names rest hrest0
    have hchain' := hchain
    rw [hxrest] at hchain'
    exact hchain'.tail
  have hnames : ((sortClusters (cfg.clusters.map
      (fun n => ({ Name := n, Current := n = currentClusterOf cfg } : ClusterInfo)))).map
      ClusterInfo.Name).Perm cfg.clusters := by
    refine (hperm.map ClusterInfo.Name).trans ?_
    rw [List.map_map]
    have hid : (ClusterInfo.Name ∘ fun n =>
        ({ Name := n, Current := n = currentClusterOf cfg } : ClusterInfo)) = id := by
      funext n
      rfl
    rw [hid, List.map_id]
  refine ⟨rest, ?_, ?_, ?_, hrestch, hrest0⟩
  · rw [hGet, hxrest, hxval]
  · rw [hGet]
    exact hnames
  · rw [hGet]
    exact hcnt

/-- Witness for C3 at a concrete config whose current context resolves to
cluster `"beta"`. -/
theorem GetClusters_spec_witness :
    cfgC3.clusters.Nodup ∧ currentClusterOf cfgC3 ∈ cfgC3.clusters ∧
    (∃ rest,
      GetClusters cfgC3 = { Name := currentClusterOf cfgC3, Current := true } :: rest ∧
      ((GetClusters cfgC3).map ClusterInfo.Name).Perm cfgC3.clusters ∧
      (GetClusters cfgC3).countP (fun c => c.Current) = 1 ∧
      rest.Chain' (fun a b => strLe a.Name b.Name = true) ∧
      ∀ c ∈ rest, c.Current = false) :=
  ⟨by decide, by decide, GetClusters_spec cfgC3 (by decide) (by decide)⟩

end Podboard
